import Mathlib

/-!
Verification of the cipher core of the Encription-Courses repository:
the Playfair cipher with Romanian-alphabet support (`src/playfair/src/main.rs`)
and the DES key-schedule generator (`src/DES/src/main.rs`).

Strings are modelled as `List Char`; Rust's `u8`/`u64` values are modelled as
`Nat` (all arithmetic stays below `2^64` on the byte-bounded inputs the Rust
code can receive, so no wrap-around modelling is needed).
-/

namespace Playfair

/-- The inclusive code-point ranges of the Unicode 14.0.0 derived core
property `Alphabetic` (`DerivedCoreProperties.txt`), the property that
Rust's `char::is_alphabetic` tests: the letter categories Lu, Ll, Lt, Lm,
Lo together with Nl and the `Other_Alphabetic` code points. -/
def alphabeticRanges : List (Nat × Nat) :=
  [(65, 90), (97, 122), (170, 170), (181, 181), (186, 186), (192, 214),
   (216, 246), (248, 705), (710, 721), (736, 740), (748, 748), (750, 750),
   (837, 837), (880, 884), (886, 887), (890, 893), (895, 895), (902, 902),
   (904, 906), (908, 908), (910, 929), (931, 1013), (1015, 1153), (1162, 1327),
   (1329, 1366), (1369, 1369), (1376, 1416), (1456, 1469), (1471, 1471), (1473, 1474),
   (1476, 1477), (1479, 1479), (1488, 1514), (1519, 1522), (1552, 1562), (1568, 1623),
   (1625, 1631), (1646, 1747), (1749, 1756), (1761, 1768), (1773, 1775), (1786, 1788),
   (1791, 1791), (1808, 1855), (1869, 1969), (1994, 2026), (2036, 2037), (2042, 2042),
   (2048, 2071), (2074, 2092), (2112, 2136), (2144, 2154), (2160, 2183), (2185, 2190),
   (2208, 2249), (2260, 2271), (2275, 2281), (2288, 2363), (2365, 2380), (2382, 2384),
   (2389, 2403), (2417, 2435), (2437, 2444), (2447, 2448), (2451, 2472), (2474, 2480),
   (2482, 2482), (2486, 2489), (2493, 2500), (2503, 2504), (2507, 2508), (2510, 2510),
   (2519, 2519), (2524, 2525), (2527, 2531), (2544, 2545), (2556, 2556), (2561, 2563),
   (2565, 2570), (2575, 2576), (2579, 2600), (2602, 2608), (2610, 2611), (2613, 2614),
   (2616, 2617), (2622, 2626), (2631, 2632), (2635, 2636), (2641, 2641), (2649, 2652),
   (2654, 2654), (2672, 2677), (2689, 2691), (2693, 2701), (2703, 2705), (2707, 2728),
   (2730, 2736), (2738, 2739), (2741, 2745), (2749, 2757), (2759, 2761), (2763, 2764),
   (2768, 2768), (2784, 2787), (2809, 2812), (2817, 2819), (2821, 2828), (2831, 2832),
   (2835, 2856), (2858, 2864), (2866, 2867), (2869, 2873), (2877, 2884), (2887, 2888),
   (2891, 2892), (2902, 2903), (2908, 2909), (2911, 2915), (2929, 2929), (2946, 2947),
   (2949, 2954), (2958, 2960), (2962, 2965), (2969, 2970), (2972, 2972), (2974, 2975),
   (2979, 2980), (2984, 2986), (2990, 3001), (3006, 3010), (3014, 3016), (3018, 3020),
   (3024, 3024), (3031, 3031), (3072, 3075), (3077, 3084), (3086, 3088), (3090, 3112),
   (3114, 3129), (3133, 3140), (3142, 3144), (3146, 3148), (3157, 3158), (3160, 3162),
   (3165, 3165), (3168, 3171), (3200, 3203), (3205, 3212), (3214, 3216), (3218, 3240),
   (3242, 3251), (3253, 3257), (3261, 3268), (3270, 3272), (3274, 3276), (3285, 3286),
   (3293, 3294), (3296, 3299), (3313, 3314), (3328, 3340), (3342, 3344), (3346, 3386),
   (3389, 3396), (3398, 3400), (3402, 3404), (3406, 3406), (3412, 3415), (3423, 3427),
   (3450, 3455), (3457, 3459), (3461, 3478), (3482, 3505), (3507, 3515), (3517, 3517),
   (3520, 3526), (3535, 3540), (3542, 3542), (3544, 3551), (3570, 3571), (3585, 3642),
   (3648, 3654), (3661, 3661), (3713, 3714), (3716, 3716), (3718, 3722), (3724, 3747),
   (3749, 3749), (3751, 3769), (3771, 3773), (3776, 3780), (3782, 3782), (3789, 3789),
   (3804, 3807), (3840, 3840), (3904, 3911), (3913, 3948), (3953, 3969), (3976, 3991),
   (3993, 4028), (4096, 4150), (4152, 4152), (4155, 4159), (4176, 4239), (4250, 4253),
   (4256, 4293), (4295, 4295), (4301, 4301), (4304, 4346), (4348, 4680), (4682, 4685),
   (4688, 4694), (4696, 4696), (4698, 4701), (4704, 4744), (4746, 4749), (4752, 4784),
   (4786, 4789), (4792, 4798), (4800, 4800), (4802, 4805), (4808, 4822), (4824, 4880),
   (4882, 4885), (4888, 4954), (4992, 5007), (5024, 5109), (5112, 5117), (5121, 5740),
   (5743, 5759), (5761, 5786), (5792, 5866), (5870, 5880), (5888, 5907), (5919, 5939),
   (5952, 5971), (5984, 5996), (5998, 6000), (6002, 6003), (6016, 6067), (6070, 6088),
   (6103, 6103), (6108, 6108), (6176, 6264), (6272, 6314), (6320, 6389), (6400, 6430),
   (6432, 6443), (6448, 6456), (6480, 6509), (6512, 6516), (6528, 6571), (6576, 6601),
   (6656, 6683), (6688, 6750), (6753, 6772), (6823, 6823), (6847, 6848), (6860, 6862),
   (6912, 6963), (6965, 6979), (6981, 6988), (7040, 7081), (7084, 7087), (7098, 7141),
   (7143, 7153), (7168, 7222), (7245, 7247), (7258, 7293), (7296, 7304), (7312, 7354),
   (7357, 7359), (7401, 7404), (7406, 7411), (7413, 7414), (7418, 7418), (7424, 7615),
   (7655, 7668), (7680, 7957), (7960, 7965), (7968, 8005), (8008, 8013), (8016, 8023),
   (8025, 8025), (8027, 8027), (8029, 8029), (8031, 8061), (8064, 8116), (8118, 8124),
   (8126, 8126), (8130, 8132), (8134, 8140), (8144, 8147), (8150, 8155), (8160, 8172),
   (8178, 8180), (8182, 8188), (8305, 8305), (8319, 8319), (8336, 8348), (8450, 8450),
   (8455, 8455), (8458, 8467), (8469, 8469), (8473, 8477), (8484, 8484), (8486, 8486),
   (8488, 8488), (8490, 8493), (8495, 8505), (8508, 8511), (8517, 8521), (8526, 8526),
   (8544, 8584), (9398, 9449), (11264, 11492), (11499, 11502), (11506, 11507), (11520, 11557),
   (11559, 11559), (11565, 11565), (11568, 11623), (11631, 11631), (11648, 11670), (11680, 11686),
   (11688, 11694), (11696, 11702), (11704, 11710), (11712, 11718), (11720, 11726), (11728, 11734),
   (11736, 11742), (11744, 11775), (11823, 11823), (12293, 12295), (12321, 12329), (12337, 12341),
   (12344, 12348), (12353, 12438), (12445, 12447), (12449, 12538), (12540, 12543), (12549, 12591),
   (12593, 12686), (12704, 12735), (12784, 12799), (13312, 19903), (19968, 42124), (42192, 42237),
   (42240, 42508), (42512, 42527), (42538, 42539), (42560, 42606), (42612, 42619), (42623, 42735),
   (42775, 42783), (42786, 42888), (42891, 42954), (42960, 42961), (42963, 42963), (42965, 42969),
   (42994, 43013), (43015, 43047), (43072, 43123), (43136, 43203), (43205, 43205), (43250, 43255),
   (43259, 43259), (43261, 43263), (43274, 43306), (43312, 43346), (43360, 43388), (43392, 43442),
   (43444, 43455), (43471, 43471), (43488, 43503), (43514, 43518), (43520, 43574), (43584, 43597),
   (43616, 43638), (43642, 43710), (43712, 43712), (43714, 43714), (43739, 43741), (43744, 43759),
   (43762, 43765), (43777, 43782), (43785, 43790), (43793, 43798), (43808, 43814), (43816, 43822),
   (43824, 43866), (43868, 43881), (43888, 44010), (44032, 55203), (55216, 55238), (55243, 55291),
   (63744, 64109), (64112, 64217), (64256, 64262), (64275, 64279), (64285, 64296), (64298, 64310),
   (64312, 64316), (64318, 64318), (64320, 64321), (64323, 64324), (64326, 64433), (64467, 64829),
   (64848, 64911), (64914, 64967), (65008, 65019), (65136, 65140), (65142, 65276), (65313, 65338),
   (65345, 65370), (65382, 65470), (65474, 65479), (65482, 65487), (65490, 65495), (65498, 65500),
   (65536, 65547), (65549, 65574), (65576, 65594), (65596, 65597), (65599, 65613), (65616, 65629),
   (65664, 65786), (65856, 65908), (66176, 66204), (66208, 66256), (66304, 66335), (66349, 66378),
   (66384, 66426), (66432, 66461), (66464, 66499), (66504, 66511), (66513, 66517), (66560, 66717),
   (66736, 66771), (66776, 66811), (66816, 66855), (66864, 66915), (66928, 66938), (66940, 66954),
   (66956, 66962), (66964, 66965), (66967, 66977), (66979, 66993), (66995, 67001), (67003, 67004),
   (67072, 67382), (67392, 67413), (67424, 67431), (67456, 67461), (67463, 67504), (67506, 67514),
   (67584, 67589), (67592, 67592), (67594, 67637), (67639, 67640), (67644, 67644), (67647, 67669),
   (67680, 67702), (67712, 67742), (67808, 67826), (67828, 67829), (67840, 67861), (67872, 67897),
   (67968, 68023), (68030, 68031), (68096, 68099), (68101, 68102), (68108, 68115), (68117, 68119),
   (68121, 68149), (68192, 68220), (68224, 68252), (68288, 68295), (68297, 68324), (68352, 68405),
   (68416, 68437), (68448, 68466), (68480, 68497), (68608, 68680), (68736, 68786), (68800, 68850),
   (68864, 68903), (69248, 69289), (69291, 69292), (69296, 69297), (69376, 69404), (69415, 69415),
   (69424, 69445), (69488, 69505), (69552, 69572), (69600, 69622), (69632, 69701), (69745, 69749),
   (69762, 69816), (69826, 69826), (69840, 69864), (69888, 69938), (69956, 69959), (69968, 70002),
   (70006, 70006), (70016, 70079), (70081, 70084), (70094, 70095), (70106, 70106), (70108, 70108),
   (70144, 70161), (70163, 70196), (70199, 70199), (70206, 70206), (70272, 70278), (70280, 70280),
   (70282, 70285), (70287, 70301), (70303, 70312), (70320, 70376), (70400, 70403), (70405, 70412),
   (70415, 70416), (70419, 70440), (70442, 70448), (70450, 70451), (70453, 70457), (70461, 70468),
   (70471, 70472), (70475, 70476), (70480, 70480), (70487, 70487), (70493, 70499), (70656, 70721),
   (70723, 70725), (70727, 70730), (70751, 70753), (70784, 70849), (70852, 70853), (70855, 70855),
   (71040, 71093), (71096, 71102), (71128, 71133), (71168, 71230), (71232, 71232), (71236, 71236),
   (71296, 71349), (71352, 71352), (71424, 71450), (71453, 71466), (71488, 71494), (71680, 71736),
   (71840, 71903), (71935, 71942), (71945, 71945), (71948, 71955), (71957, 71958), (71960, 71989),
   (71991, 71992), (71995, 71996), (71999, 72002), (72096, 72103), (72106, 72151), (72154, 72159),
   (72161, 72161), (72163, 72164), (72192, 72242), (72245, 72254), (72272, 72343), (72349, 72349),
   (72368, 72440), (72704, 72712), (72714, 72758), (72760, 72766), (72768, 72768), (72818, 72847),
   (72850, 72871), (72873, 72886), (72960, 72966), (72968, 72969), (72971, 73014), (73018, 73018),
   (73020, 73021), (73023, 73025), (73027, 73027), (73030, 73031), (73056, 73061), (73063, 73064),
   (73066, 73102), (73104, 73105), (73107, 73110), (73112, 73112), (73440, 73462), (73648, 73648),
   (73728, 74649), (74752, 74862), (74880, 75075), (77712, 77808), (77824, 78894), (82944, 83526),
   (92160, 92728), (92736, 92766), (92784, 92862), (92880, 92909), (92928, 92975), (92992, 92995),
   (93027, 93047), (93053, 93071), (93760, 93823), (93952, 94026), (94031, 94087), (94095, 94111),
   (94176, 94177), (94179, 94179), (94192, 94193), (94208, 100343), (100352, 101589), (101632, 101640),
   (110576, 110579), (110581, 110587), (110589, 110590), (110592, 110882), (110928, 110930), (110948, 110951),
   (110960, 111355), (113664, 113770), (113776, 113788), (113792, 113800), (113808, 113817), (113822, 113822),
   (119808, 119892), (119894, 119964), (119966, 119967), (119970, 119970), (119973, 119974), (119977, 119980),
   (119982, 119993), (119995, 119995), (119997, 120003), (120005, 120069), (120071, 120074), (120077, 120084),
   (120086, 120092), (120094, 120121), (120123, 120126), (120128, 120132), (120134, 120134), (120138, 120144),
   (120146, 120485), (120488, 120512), (120514, 120538), (120540, 120570), (120572, 120596), (120598, 120628),
   (120630, 120654), (120656, 120686), (120688, 120712), (120714, 120744), (120746, 120770), (120772, 120779),
   (122624, 122654), (122880, 122886), (122888, 122904), (122907, 122913), (122915, 122916), (122918, 122922),
   (123136, 123180), (123191, 123197), (123214, 123214), (123536, 123565), (123584, 123627), (124896, 124902),
   (124904, 124907), (124909, 124910), (124912, 124926), (124928, 125124), (125184, 125251), (125255, 125255),
   (125259, 125259), (126464, 126467), (126469, 126495), (126497, 126498), (126500, 126500), (126503, 126503),
   (126505, 126514), (126516, 126519), (126521, 126521), (126523, 126523), (126530, 126530), (126535, 126535),
   (126537, 126537), (126539, 126539), (126541, 126543), (126545, 126546), (126548, 126548), (126551, 126551),
   (126553, 126553), (126555, 126555), (126557, 126557), (126559, 126559), (126561, 126562), (126564, 126564),
   (126567, 126570), (126572, 126578), (126580, 126583), (126585, 126588), (126590, 126590), (126592, 126601),
   (126603, 126619), (126625, 126627), (126629, 126633), (126635, 126651), (127280, 127305), (127312, 127337),
   (127344, 127369), (131072, 173791), (173824, 177976), (177984, 178205), (178208, 183969), (183984, 191456),
   (194560, 195101), (196608, 201546)]

/-- Model of Rust's `char::is_alphabetic`: membership of the character's
code point in the Unicode `Alphabetic` property ranges. -/
def rust_is_alphabetic (c : Char) : Bool :=
  alphabeticRanges.any (fun r => r.1 ≤ c.toNat && c.toNat ≤ r.2)

/-- Function `validate_text` from `src/playfair/src/main.rs` lines 4-6:
every character is alphabetic or one of `ăâîșț`. -/
def validate_text (text : List Char) : Bool :=
  text.all (fun c => rust_is_alphabetic c || c ∈ ['ă', 'â', 'î', 'ș', 'ț'])

/-- UTF-8 byte length of a string, as computed by Rust's `str::len`. -/
def utf8Len (s : List Char) : Nat :=
  (s.map Char.utf8Size).sum

/-- Function `validate_key` from `src/playfair/src/main.rs` lines 8-10:
`key.len() >= 7 && validate_text(key)`.  Rust's `str::len` is the UTF-8
byte length, so the threshold is on bytes, not characters. -/
def validate_key (key : List Char) : Bool :=
  decide (7 ≤ utf8Len key) && validate_text key

/-- Model of Rust's `str::to_uppercase`, character-wise, on the modelled
repertoire (ASCII letters map `a-z → A-Z`; the Romanian lowercase letters map
to their uppercase forms; every other modelled character is unchanged). -/
def toUpperRo (c : Char) : Char :=
  if 'a' ≤ c && c ≤ 'z' then Char.ofNat (c.toNat - 32)
  else if c = 'ă' then 'Ă'
  else if c = 'â' then 'Â'
  else if c = 'î' then 'Î'
  else if c = 'ș' then 'Ș'
  else if c = 'ț' then 'Ț'
  else c

/-- Model of `.replace('J', "I")` on a single character. -/
def replJ (c : Char) : Char :=
  if c = 'J' then 'I' else c

/-- Helper of `remove_duplicates`: the `seen` set threaded through the loop. -/
def removeDupAux (seen : List Char) : List Char → List Char
  | [] => []
  | c :: cs => if c ∈ seen then removeDupAux seen cs
               else c :: removeDupAux (c :: seen) cs

/-- Function `remove_duplicates` from `src/playfair/src/main.rs` lines 12-23:
keep the first occurrence of each character, preserving order. -/
def remove_duplicates (key : List Char) : List Char :=
  removeDupAux [] key

/-- The configured alphabet constant from `create_matrix` line 35:
`"ABCDEFGHIKLMNOPQRSTUVWXYZĂÂÎȘȚ"` (no `J`; 30 symbols). -/
def alphabetL : List Char :=
  ['A', 'B', 'C', 'D', 'E', 'F', 'G', 'H', 'I', 'K', 'L', 'M', 'N', 'O', 'P',
   'Q', 'R', 'S', 'T', 'U', 'V', 'W', 'X', 'Y', 'Z', 'Ă', 'Â', 'Î', 'Ș', 'Ț']

/-- The loop of `create_matrix` lines 36-40: append each alphabet character
not already present to the accumulated character list. -/
def addAlphabet (acc : List Char) : List Char → List Char
  | [] => acc
  | c :: cs => addAlphabet (if c ∈ acc then acc else acc ++ [c]) cs

/-- The row-building loop of `create_matrix` lines 42-57: cut the character
list into rows of five, right-padding an incomplete final row with `'X'`. -/
def buildRows : List Char → List (List Char)
  | c1 :: c2 :: c3 :: c4 :: c5 :: rest => [c1, c2, c3, c4, c5] :: buildRows rest
  | [] => []
  | rest => [rest ++ List.replicate (5 - rest.length) 'X']

/-- The deduplicated keyword-plus-alphabet character sequence of
`create_matrix` lines 30-40 (`all_chars` in the source). -/
def allChars (key : List Char) : List Char :=
  addAlphabet (remove_duplicates ((key.map toUpperRo).map replJ)) alphabetL

/-- Function `create_matrix` from `src/playfair/src/main.rs` lines 25-60. -/
def create_matrix (key : List Char) : List (List Char) :=
  buildRows (allChars key)

/-- Inner loop of `find_position`: index of the first occurrence of `c` in a
row, if any. -/
def findInRow (row : List Char) (c : Char) : Option Nat :=
  match row with
  | [] => none
  | x :: xs => if x = c then some 0 else (findInRow xs c).map (· + 1)

/-- Function `find_position` from `src/playfair/src/main.rs` lines 62-71: row-major
scan for the first occurrence of a character. -/
def find_position (matrix : List (List Char)) (c : Char) : Option (Nat × Nat) :=
  match matrix with
  | [] => none
  | row :: rest =>
    match findInRow row c with
    | some j => some (0, j)
    | none => (find_position rest c).map (fun p => (p.1 + 1, p.2))

/-- Cell access `matrix[i][j]` (always used with in-range indices in the source). -/
def mget (m : List (List Char)) (i j : Nat) : Char :=
  (m.getD i []).getD j 'X'

/-- The chunking of `text_chars.chunks(2)`: consecutive pairs, with a final
singleton when the length is odd. -/
def chunks2 : List Char → List (List Char)
  | [] => []
  | [a] => [[a]]
  | a :: b :: rest => [a, b] :: chunks2 rest

/-- Body of the encryption loop, `src/playfair/src/main.rs` lines 85-109.
For a chunk, `c1 = chunk[0]` and `c2 = chunk[chunk.len()-1]` (equal for a
singleton chunk).  When both are found the row/column/rectangle rules apply;
otherwise the original characters pass through unchanged. -/
def encChunk (m : List (List Char)) (chunk : List Char) : List Char :=
  match find_position m (chunk.headD 'X'), find_position m (chunk.getLastD 'X') with
  | some (r1, p1), some (r2, p2) =>
    if r1 = r2 then [mget m r1 ((p1 + 1) % 5), mget m r2 ((p2 + 1) % 5)]
    else if p1 = p2 then
      [mget m ((r1 + 1) % m.length) p1, mget m ((r2 + 1) % m.length) p2]
    else [mget m r1 p2, mget m r2 p1]
  | _, _ =>
    if 1 < chunk.length then [chunk.headD 'X', chunk.getLastD 'X']
    else [chunk.headD 'X']

/-- Body of the decryption loop, `src/playfair/src/main.rs` lines 118-142:
same dispatch as encryption with the inverse shifts `(pos+4) % 5` resp.
`(row + rows - 1) % rows`; the rectangle rule is self-inverse. -/
def decChunk (m : List (List Char)) (chunk : List Char) : List Char :=
  match find_position m (chunk.headD 'X'), find_position m (chunk.getLastD 'X') with
  | some (r1, p1), some (r2, p2) =>
    if r1 = r2 then [mget m r1 ((p1 + 4) % 5), mget m r2 ((p2 + 4) % 5)]
    else if p1 = p2 then
      [mget m ((r1 + m.length - 1) % m.length) p1,
       mget m ((r2 + m.length - 1) % m.length) p2]
    else [mget m r1 p2, mget m r2 p1]
  | _, _ =>
    if 1 < chunk.length then [chunk.headD 'X', chunk.getLastD 'X']
    else [chunk.headD 'X']

/-- Padding step of `encrypt_playfair` lines 78-80: append `'X'` when the
character count is odd. -/
def padEven (t : List Char) : List Char :=
  if t.length % 2 ≠ 0 then t ++ ['X'] else t

/-- The preprocessed text encrypted by `encrypt_playfair` lines 74-80:
uppercase, replace `J` with `I`, then pad to even length. -/
def processEnc (text : List Char) : List Char :=
  padEven ((text.map toUpperRo).map replJ)

/-- Function `encrypt_playfair` from `src/playfair/src/main.rs` lines 73-111. -/
def encrypt_playfair (m : List (List Char)) (text : List Char) : List Char :=
  ((chunks2 (processEnc text)).map (encChunk m)).flatten

/-- Function `decrypt_playfair` from `src/playfair/src/main.rs` lines 113-144:
uppercases its input (no `J` replacement, no padding) and applies the
inverse substitution chunk by chunk. -/
def decrypt_playfair (m : List (List Char)) (text : List Char) : List Char :=
  ((chunks2 (text.map toUpperRo)).map (decChunk m)).flatten

/-- The letter class of the configured (Romanian-extended) alphabet:
characters whose uppercase, `J→I`-merged image is a symbol of the alphabet. -/
def letterClass : List Char :=
  ['a', 'b', 'c', 'd', 'e', 'f', 'g', 'h', 'i', 'j', 'k', 'l', 'm', 'n', 'o',
   'p', 'q', 'r', 's', 't', 'u', 'v', 'w', 'x', 'y', 'z',
   'A', 'B', 'C', 'D', 'E', 'F', 'G', 'H', 'I', 'J', 'K', 'L', 'M', 'N', 'O',
   'P', 'Q', 'R', 'S', 'T', 'U', 'V', 'W', 'X', 'Y', 'Z',
   'ă', 'â', 'î', 'ș', 'ț', 'Ă', 'Â', 'Î', 'Ș', 'Ț']

end Playfair

namespace DES

/-- The PC-1 permutation table from `src/DES/src/main.rs` lines 4-12. -/
def PC1 : List Nat :=
  [57, 49, 41, 33, 25, 17,  9,  1,
   58, 50, 42, 34, 26, 18, 10,  2,
   59, 51, 43, 35, 27, 19, 11,  3,
   60, 52, 44, 36, 63, 55, 47, 39,
   31, 23, 15,  7, 62, 54, 46, 38,
   30, 22, 14,  6, 61, 53, 45, 37,
   29, 21, 13,  5, 28, 20, 12,  4]

/-- The 64-bit packing loop of `process_standard_key` lines 59-62:
`key_64bit |= (byte as u64) << (56 - i * 8)`. -/
def pack64 (key_bytes : List Nat) : Nat :=
  (key_bytes.enum).foldl (fun acc p => acc ||| (p.2 <<< (56 - p.1 * 8))) 0

/-- The PC-1 permutation loop of `process_standard_key` lines 64-69:
`k_plus |= ((key_64bit >> (64 - pos)) & 1) << (55 - i)`. -/
def applyPC1 (key64 : Nat) : Nat :=
  (PC1.enum).foldl
    (fun acc p => acc ||| (((key64 >>> (64 - p.2)) &&& 1) <<< (55 - p.1))) 0

/-- Function `process_standard_key` from `src/DES/src/main.rs` lines 57-72 (the `Ok`
wrapper is dropped: no path of the Rust function constructs an error). -/
def process_standard_key (key_bytes : List Nat) : Nat :=
  applyPC1 (pack64 key_bytes)

/-- Function `process_key` from `src/DES/src/main.rs` lines 35-54: dispatch on the
input length — exactly 8 bytes used as-is, short input zero-padded on the
right to 8 bytes, long input truncated to its first 8 bytes. -/
def process_key (key_bytes : List Nat) : Nat :=
  if key_bytes.length = 8 then process_standard_key key_bytes
  else if key_bytes.length ≤ 7 then
    process_standard_key (key_bytes ++ List.replicate (8 - key_bytes.length) 0)
  else process_standard_key (key_bytes.take 8)

/-- The logical API name the specification uses for `process_key`
(spec section 6). -/
def derive_key_material (key_bytes : List Nat) : Nat :=
  process_key key_bytes

/-- Spec-side definition, following the words of spec section 3
(`NormalizedKey`): length 8 kept, shorter input zero-padded on the right to
8 bytes, longer input truncated to the first 8 bytes.  Used only to compare
against the code's dispatch in `process_key`. -/
def specNormalizedKey (b : List Nat) : List Nat :=
  if b.length = 8 then b
  else if b.length < 8 then b ++ List.replicate (8 - b.length) 0
  else b.take 8

/-- Spec-side definition, following the words of spec section 4.1 step 2:
byte `i` shifted left by `56 - 8*i`, summed (the bytes occupy disjoint bit
ranges, so the sum is the packed word). -/
def specPacked (b : List Nat) : Nat :=
  ((b.enum).map (fun p => p.2 <<< (56 - 8 * p.1))).sum

/-- Spec-side definition, following the words of spec section 4.1 step 3 and
the claim: for each output slot `i` with table entry `p = PC1[i]`, the source
bit `64 - p` is placed at output bit `55 - i`; the 56 slots occupy disjoint
bit positions, so the sum is the assembled word. -/
def specDerived (b : List Nat) : Nat :=
  ((PC1.enum).map
    (fun q => ((specPacked b >>> (64 - q.2)) &&& 1) <<< (55 - q.1))).sum

end DES

namespace DES

/-! ### Arithmetic helpers for the key-schedule folds -/

/-- Bitwise-or of values occupying disjoint bit ranges is addition. -/
lemma lor_eq_add_of_disjoint {a b w : Nat} (ha : a % 2 ^ w = 0) (hb : b < 2 ^ w) :
    a ||| b = a + b := by
  obtain ⟨q, rfl⟩ : ∃ q, a = 2 ^ w * q :=
    ⟨a / 2 ^ w, (Nat.mul_div_cancel' (Nat.dvd_of_mod_eq_zero ha)).symm⟩
  apply Nat.eq_of_testBit_eq
  intro i
  rw [Nat.testBit_lor, Nat.testBit_mul_pow_two_add q hb i, Nat.mul_comm,
      ← Nat.shiftLeft_eq, Nat.testBit_shiftLeft]
  rcases Nat.lt_or_ge i w with hi | hi
  · have hn : ¬ w ≤ i := by omega
    simp [hi, hn]
  · have h2 : Nat.testBit b i = false :=
      Nat.testBit_lt_two_pow
        (lt_of_lt_of_le hb (Nat.pow_le_pow_right (by norm_num) hi))
    have hn : ¬ i < w := by omega
    simp [hn, hi, h2]

/-- The byte-packing fold of `process_standard_key` equals the sum of the
shifted bytes: the bytes occupy disjoint 8-bit ranges of the 64-bit word. -/
lemma pack_fold (l : List Nat) : ∀ (n acc : Nat),
    (∀ x ∈ l, x < 256) → n + l.length ≤ 8 → acc % 2 ^ (64 - 8 * n) = 0 →
    (List.enumFrom n l).foldl (fun a p => a ||| (p.2 <<< (56 - p.1 * 8))) acc
      = acc + ((List.enumFrom n l).map (fun p => p.2 <<< (56 - p.1 * 8))).sum := by
  induction l with
  | nil => intro n acc _ _ _; simp
  | cons x xs ih =>
    intro n acc hb hn hacc
    rw [List.enumFrom_cons]
    simp only [List.foldl_cons, List.map_cons, List.sum_cons]
    have hn7 : n ≤ 7 := by
      simp only [List.length_cons] at hn
      omega
    have hshift : x <<< (56 - n * 8) = x * 2 ^ (56 - 8 * n) := by
      rw [Nat.shiftLeft_eq]
      congr 2
      omega
    have hterm : x <<< (56 - n * 8) < 2 ^ (64 - 8 * n) := by
      rw [hshift]
      calc x * 2 ^ (56 - 8 * n) < 256 * 2 ^ (56 - 8 * n) :=
            mul_lt_mul_of_pos_right (hb x (List.mem_cons_self x xs))
              (Nat.two_pow_pos _)
        _ = 2 ^ 8 * 2 ^ (56 - 8 * n) := by norm_num
        _ = 2 ^ (64 - 8 * n) := by rw [← pow_add]; congr 1; omega
    have hstep : acc ||| x <<< (56 - n * 8) = acc + x <<< (56 - n * 8) :=
      lor_eq_add_of_disjoint hacc hterm
    have hacc' : (acc + x <<< (56 - n * 8)) % 2 ^ (64 - 8 * (n + 1)) = 0 := by
      have hdvd : (2 : Nat) ^ (64 - 8 * (n + 1)) ∣ acc + x <<< (56 - n * 8) := by
        apply Nat.dvd_add
        · exact dvd_trans (pow_dvd_pow 2 (by omega)) (Nat.dvd_of_mod_eq_zero hacc)
        · rw [hshift]
          have he : 64 - 8 * (n + 1) = 56 - 8 * n := by omega
          rw [he]
          exact dvd_mul_left _ _
      exact Nat.mod_eq_zero_of_dvd hdvd
    rw [hstep, ih (n + 1) _ (fun y hy => hb y (List.mem_cons_of_mem x hy))
        (by simp only [List.length_cons] at hn; omega) hacc', Nat.add_assoc]

/-- The PC-1 selection fold of `process_standard_key` equals the sum of the
placed bits: the 56 selected bits occupy disjoint output positions. -/
lemma pc1_fold (key64 : Nat) (l : List Nat) : ∀ (n acc : Nat),
    n + l.length ≤ 56 → acc % 2 ^ (56 - n) = 0 →
    (List.enumFrom n l).foldl
        (fun a p => a ||| (((key64 >>> (64 - p.2)) &&& 1) <<< (55 - p.1))) acc
      = acc + ((List.enumFrom n l).map
          (fun p => ((key64 >>> (64 - p.2)) &&& 1) <<< (55 - p.1))).sum := by
  induction l with
  | nil => intro n acc _ _; simp
  | cons x xs ih =>
    intro n acc hn hacc
    rw [List.enumFrom_cons]
    simp only [List.foldl_cons, List.map_cons, List.sum_cons]
    have hn55 : n ≤ 55 := by
      simp only [List.length_cons] at hn
      omega
    have hbit : (key64 >>> (64 - x)) &&& 1 ≤ 1 := Nat.and_le_right
    have hshift : ((key64 >>> (64 - x)) &&& 1) <<< (55 - n)
        = ((key64 >>> (64 - x)) &&& 1) * 2 ^ (55 - n) := Nat.shiftLeft_eq _ _
    have hterm : ((key64 >>> (64 - x)) &&& 1) <<< (55 - n) < 2 ^ (56 - n) := by
      rw [hshift]
      calc ((key64 >>> (64 - x)) &&& 1) * 2 ^ (55 - n)
          ≤ 1 * 2 ^ (55 - n) := Nat.mul_le_mul_right _ hbit
        _ = 2 ^ (55 - n) := one_mul _
        _ < 2 ^ (56 - n) := Nat.pow_lt_pow_right (by norm_num) (by omega)
    have hstep := lor_eq_add_of_disjoint hacc hterm
    have hacc' : (acc + ((key64 >>> (64 - x)) &&& 1) <<< (55 - n))
        % 2 ^ (56 - (n + 1)) = 0 := by
      have hdvd : (2 : Nat) ^ (56 - (n + 1))
          ∣ acc + ((key64 >>> (64 - x)) &&& 1) <<< (55 - n) := by
        apply Nat.dvd_add
        · exact dvd_trans (pow_dvd_pow 2 (by omega)) (Nat.dvd_of_mod_eq_zero hacc)
        · rw [hshift]
          have he : 56 - (n + 1) = 55 - n := by omega
          rw [he]
          exact dvd_mul_left _ _
      exact Nat.mod_eq_zero_of_dvd hdvd
    rw [hstep, ih (n + 1) _ (by simp only [List.length_cons] at hn; omega) hacc',
        Nat.add_assoc]

/-- The packing loop computes the spec's big-endian packed word. -/
lemma pack64_eq_spec (b : List Nat) (hlen : b.length ≤ 8)
    (hb : ∀ x ∈ b, x < 256) : pack64 b = specPacked b := by
  have h := pack_fold b 0 0 hb (by omega) (by simp)
  unfold pack64 specPacked
  rw [show b.enum = List.enumFrom 0 b from rfl, h, Nat.zero_add]
  have hfun : (fun p : Nat × Nat => p.2 <<< (56 - p.1 * 8))
      = (fun p : Nat × Nat => p.2 <<< (56 - 8 * p.1)) := by
    funext p
    congr 1
    omega
  rw [hfun]

/-- The PC-1 loop on any packed word computes the spec's bit-selection sum. -/
lemma applyPC1_eq_sum (key64 : Nat) :
    applyPC1 key64 = ((PC1.enum).map
      (fun q => ((key64 >>> (64 - q.2)) &&& 1) <<< (55 - q.1))).sum := by
  have h := pc1_fold key64 PC1 0 0 (by decide) (by simp)
  unfold applyPC1
  rw [show PC1.enum = List.enumFrom 0 PC1 from rfl, h, Nat.zero_add]

/-- Every value produced by the PC-1 loop fits in 56 bits. -/
lemma applyPC1_lt (key64 : Nat) : applyPC1 key64 < 2 ^ 56 := by
  unfold applyPC1
  have h : ∀ (l : List (Nat × Nat)) (acc : Nat), acc < 2 ^ 56 →
      l.foldl (fun a p => a ||| (((key64 >>> (64 - p.2)) &&& 1) <<< (55 - p.1)))
        acc < 2 ^ 56 := by
    intro l
    induction l with
    | nil => intro acc hacc; simpa using hacc
    | cons x xs ih =>
      intro acc hacc
      simp only [List.foldl_cons]
      apply ih
      apply Nat.or_lt_two_pow hacc
      calc ((key64 >>> (64 - x.2)) &&& 1) <<< (55 - x.1)
          = ((key64 >>> (64 - x.2)) &&& 1) * 2 ^ (55 - x.1) := Nat.shiftLeft_eq _ _
        _ ≤ 1 * 2 ^ (55 - x.1) := Nat.mul_le_mul_right _ Nat.and_le_right
        _ = 2 ^ (55 - x.1) := one_mul _
        _ < 2 ^ 56 := Nat.pow_lt_pow_right (by norm_num) (by omega)
  exact h _ 0 (by norm_num)

end DES
namespace DES

/-- C2: for every 8-byte input, `derive_key_material` equals the value
obtained by packing the bytes big-endian into a 64-bit word (byte `i`
shifted left by `56 - 8*i`) and then, for each output slot `i` from 0 to 55
with table entry `p = PC1[i]`, selecting source bit `64 - p` of the packed
word and placing it at output bit `55 - i`; in particular this holds for
the concrete key `"MORTYNOR"`. -/
theorem derive_key_material_matches_spec (b : List Nat)
    (hlen : b.length = 8) (hb : ∀ x ∈ b, x < 256) :
    derive_key_material b = specDerived b := by
  unfold derive_key_material process_key
  rw [if_pos hlen]
  unfold process_standard_key
  rw [pack64_eq_spec b (by omega) hb, applyPC1_eq_sum]
  rfl

/-- Witness for C2: the theorem applied to the byte string `"MORTYNOR"`
(`[0x4D, 0x4F, 0x52, 0x54, 0x59, 0x4E, 0x4F, 0x52]`). -/
theorem derive_key_material_matches_spec_witness :
    ([77, 79, 82, 84, 89, 78, 79, 82] : List Nat).length = 8 ∧
      derive_key_material [77, 79, 82, 84, 89, 78, 79, 82]
        = specDerived [77, 79, 82, 84, 89, 78, 79, 82] :=
  ⟨rfl, derive_key_material_matches_spec [77, 79, 82, 84, 89, 78, 79, 82]
    rfl (by decide)⟩

/-- C5: `derive_key_material` of any byte sequence equals
`derive_key_material` of the sequence normalized to exactly 8 bytes as the
spec describes (identity at length 8, right zero-padding below, truncation
to the first 8 bytes above). -/
theorem derive_key_material_normalizes (b : List Nat) :
    derive_key_material b = derive_key_material (specNormalizedKey b) := by
  unfold derive_key_material process_key specNormalizedKey
  rcases Nat.lt_trichotomy b.length 8 with h | h | h
  · have h8 : b.length ≠ 8 := Nat.ne_of_lt h
    have h7 : b.length ≤ 7 := Nat.lt_succ_iff.mp h
    have hlen : (b ++ List.replicate (8 - b.length) 0).length = 8 := by
      simp only [List.length_append, List.length_replicate]
      omega
    simp [h8, h7, h, hlen]
  · simp [h]
  · have h8 : b.length ≠ 8 := by omega
    have h7 : ¬ b.length ≤ 7 := by omega
    have hlt : ¬ b.length < 8 := by omega
    have hlen : (b.take 8).length = 8 := by
      simp only [List.length_take]
      omega
    simp [h8, h7, hlt, hlen]

/-- C9: on every byte sequence of any length `derive_key_material` succeeds
and produces a value that fits in 56 bits — it is below `2^56` and the top
8 bits of the 64-bit container are zero.  (Success is totality: the Rust
function returns a `Result` but constructs `Ok` on every path, so the
embedding is a total function producing this value for every input,
including the empty sequence.) -/
theorem derive_key_material_fits_56 (b : List Nat) :
    derive_key_material b < 2 ^ 56 ∧ derive_key_material b >>> 56 = 0 := by
  have hlt : derive_key_material b < 2 ^ 56 := by
    unfold derive_key_material process_key
    split
    · exact applyPC1_lt _
    · split
      · exact applyPC1_lt _
      · exact applyPC1_lt _
  refine ⟨hlt, ?_⟩
  rw [Nat.shiftRight_eq_div_pow]
  exact Nat.div_eq_of_lt hlt

end DES
namespace Playfair

/-! ### Validation -/

/-- C4 counterexample, refuting both rejection conditions of the claim.
The four-character keyword `"ăăăă"` lies entirely in the configured letter
class and has fewer than 7 characters, yet `validate_key` accepts it — the
length check counts UTF-8 bytes (8 here), not characters.  The
four-character keyword `"ЖЖЖЖ"` (8 UTF-8 bytes, every character Cyrillic,
hence alphabetic but outside the configured alphabet's letter class) is
also accepted, although the claim requires rejection of keywords containing
characters outside that class. -/
theorem validate_key_charcount_counterexample :
    (("ăăăă".toList).length < 7 ∧ (∀ c ∈ "ăăăă".toList, c ∈ letterClass) ∧
      validate_key "ăăăă".toList = true) ∧
    (("ЖЖЖЖ".toList).length < 7 ∧ (∀ c ∈ "ЖЖЖЖ".toList, c ∉ letterClass) ∧
      validate_key "ЖЖЖЖ".toList = true) := by
  exact ⟨⟨by decide, by decide, by decide⟩, by decide, by decide, by decide⟩

/-- C4 (amended): `validate_key` rejects exactly the keywords whose UTF-8
byte length is below 7 or that contain a character that is neither
Unicode-alphabetic (Rust's `char::is_alphabetic`) nor one of `ăâîșț`, and
accepts all others; in particular `"AB"` (2 bytes) is rejected. -/
theorem validate_key_exact :
    (∀ k : List Char, validate_key k = true ↔
      (7 ≤ utf8Len k ∧ ∀ c ∈ k,
        (rust_is_alphabetic c || c ∈ ['ă', 'â', 'î', 'ș', 'ț']) = true)) ∧
    validate_key "AB".toList = false := by
  constructor
  · intro k
    simp [validate_key, validate_text, List.all_eq_true]
  · decide

/-- Witness for C4: the theorem instantiated at the accepted keyword
`"MONARCHY"`. -/
theorem validate_key_exact_witness :
    validate_key "MONARCHY".toList = true ∧
      (7 ≤ utf8Len "MONARCHY".toList ∧ ∀ c ∈ "MONARCHY".toList,
        (rust_is_alphabetic c || c ∈ ['ă', 'â', 'î', 'ș', 'ț']) = true) :=
  ⟨by decide, (validate_key_exact.1 "MONARCHY".toList).mp (by decide)⟩

/-! ### Matrix construction -/

lemma mem_removeDupAux {c : Char} :
    ∀ (l seen : List Char), c ∈ removeDupAux seen l ↔ c ∈ l ∧ c ∉ seen := by
  intro l
  induction l with
  | nil => intro seen; simp [removeDupAux]
  | cons x xs ih =>
    intro seen
    by_cases hx : x ∈ seen
    · rw [removeDupAux, if_pos hx, ih]
      constructor
      · rintro ⟨h1, h2⟩
        exact ⟨List.mem_cons_of_mem x h1, h2⟩
      · rintro ⟨h1, h2⟩
        rcases List.mem_cons.mp h1 with rfl | h1
        · exact absurd hx h2
        · exact ⟨h1, h2⟩
    · rw [removeDupAux, if_neg hx]
      constructor
      · intro h
        rcases List.mem_cons.mp h with rfl | h
        · exact ⟨List.mem_cons_self _ _, hx⟩
        · obtain ⟨h1, h2⟩ := (ih (x :: seen)).mp h
          refine ⟨List.mem_cons_of_mem x h1, fun hc => h2 (List.mem_cons_of_mem x hc)⟩
      · rintro ⟨h1, h2⟩
        rcases List.mem_cons.mp h1 with rfl | h1
        · exact List.mem_cons_self _ _
        · by_cases hcx : c = x
          · subst hcx
            exact List.mem_cons_self _ _
          · exact List.mem_cons_of_mem _ ((ih (x :: seen)).mpr
              ⟨h1, fun hc => (List.mem_cons.mp hc).elim hcx h2⟩)

lemma nodup_removeDupAux : ∀ (l seen : List Char), (removeDupAux seen l).Nodup := by
  intro l
  induction l with
  | nil => intro seen; simp [removeDupAux]
  | cons x xs ih =>
    intro seen
    by_cases hx : x ∈ seen
    · rw [removeDupAux, if_pos hx]
      exact ih seen
    · rw [removeDupAux, if_neg hx]
      refine List.nodup_cons.mpr ⟨?_, ih (x :: seen)⟩
      intro hc
      exact ((mem_removeDupAux xs (x :: seen)).mp hc).2 (List.mem_cons_self _ _)

lemma remove_duplicates_nodup (l : List Char) : (remove_duplicates l).Nodup :=
  nodup_removeDupAux l []

lemma mem_remove_duplicates {c : Char} {l : List Char} :
    c ∈ remove_duplicates l ↔ c ∈ l := by
  rw [remove_duplicates, mem_removeDupAux]
  simp

lemma addAlphabet_eq (alpha : List Char) :
    ∀ (acc : List Char), alpha.Nodup →
      addAlphabet acc alpha = acc ++ alpha.filter (fun c => decide (c ∉ acc)) := by
  induction alpha with
  | nil => intro acc _; simp [addAlphabet]
  | cons c cs ih =>
    intro acc hnd
    obtain ⟨hc, hcs⟩ := List.nodup_cons.mp hnd
    by_cases hmem : c ∈ acc
    · rw [addAlphabet, if_pos hmem, ih acc hcs]
      have hfc : (fun x => decide (x ∉ acc)) c = false := by
        simp [hmem]
      rw [List.filter_cons_of_neg (by simp [hmem])]
    · rw [addAlphabet, if_neg hmem, ih (acc ++ [c]) hcs]
      have hfilter : cs.filter (fun x => decide (x ∉ acc ++ [c]))
          = cs.filter (fun x => decide (x ∉ acc)) := by
        apply List.filter_congr
        intro x hx
        have hxc : x ≠ c := fun h => hc (h ▸ hx)
        simp [List.mem_append, hxc]
      rw [hfilter, List.filter_cons_of_pos (by simp [hmem]), List.append_assoc,
          List.singleton_append]

lemma perm_append_filter (u a : List Char) (hu : u.Nodup) (ha : a.Nodup)
    (hsub : ∀ x ∈ u, x ∈ a) :
    (u ++ a.filter (fun c => decide (c ∉ u))).Perm a := by
  rw [List.perm_iff_count]
  intro x
  rw [List.count_append]
  by_cases hx : x ∈ u
  · have h1 : List.count x u = 1 := List.count_eq_one_of_mem hu hx
    have h2 : List.count x (a.filter (fun c => decide (c ∉ u))) = 0 := by
      rw [List.count_eq_zero]
      intro hmem
      have := List.of_mem_filter hmem
      simp at this
      exact this hx
    have h3 : List.count x a = 1 := List.count_eq_one_of_mem ha (hsub x hx)
    omega
  · have h1 : List.count x u = 0 := by
      rw [List.count_eq_zero]
      exact hx
    have h2 : List.count x (a.filter (fun c => decide (c ∉ u))) = List.count x a :=
      List.count_filter (by simp [hx])
    omega

lemma alphabetL_nodup : alphabetL.Nodup := by decide

lemma letterClass_maps_into_alphabet :
    ∀ c ∈ letterClass, replJ (toUpperRo c) ∈ alphabetL := by decide

lemma allChars_perm (k : List Char) (hk : ∀ c ∈ k, c ∈ letterClass) :
    (allChars k).Perm alphabetL := by
  unfold allChars
  rw [addAlphabet_eq alphabetL _ alphabetL_nodup]
  apply perm_append_filter _ _ (remove_duplicates_nodup _) alphabetL_nodup
  intro x hx
  have hx' := mem_remove_duplicates.mp hx
  obtain ⟨y, hy, rfl⟩ := List.mem_map.mp hx'
  obtain ⟨z, hz, rfl⟩ := List.mem_map.mp hy
  exact letterClass_maps_into_alphabet z (hk z hz)

lemma five_cons_of_le (l : List Char) (h : 5 ≤ l.length) :
    ∃ a b c d e t, l = a :: b :: c :: d :: e :: t := by
  rcases l with _ | ⟨a, _ | ⟨b, _ | ⟨c, _ | ⟨d, _ | ⟨e, t⟩⟩⟩⟩⟩
  · simp at h
  · simp at h
  · simp at h
  · simp at h
  · simp at h
  · exact ⟨a, b, c, d, e, t, rfl⟩

lemma buildRows_spec : ∀ l : List Char, l.length % 5 = 0 →
    (buildRows l).flatten = l ∧ (∀ r ∈ buildRows l, r.length = 5) ∧
      (buildRows l).length = l.length / 5 := by
  intro l
  induction l using buildRows.induct with
  | case1 c1 c2 c3 c4 c5 rest ih =>
    intro h
    have hrest : rest.length % 5 = 0 := by
      simp only [List.length_cons] at h
      omega
    obtain ⟨ih1, ih2, ih3⟩ := ih hrest
    rw [buildRows]
    refine ⟨?_, ?_, ?_⟩
    · simp [ih1]
    · intro r hr
      rcases List.mem_cons.mp hr with rfl | hr
      · rfl
      · exact ih2 r hr
    · simp only [List.length_cons, ih3]
      omega
  | case2 =>
    intro _
    simp [buildRows]
  | case3 rest h5 hnil =>
    intro h
    exfalso
    have hlt : rest.length < 5 := by
      by_contra hge
      obtain ⟨a, b, c, d, e, t, rfl⟩ := five_cons_of_le rest (by omega)
      exact h5 a b c d e t rfl
    have hne : rest.length ≠ 0 := by
      intro h0
      exact hnil (List.length_eq_zero.mp h0)
    omega

lemma create_matrix_shape (k : List Char) (hk : ∀ c ∈ k, c ∈ letterClass) :
    (create_matrix k).flatten = allChars k ∧
      (∀ r ∈ create_matrix k, r.length = 5) ∧ (create_matrix k).length = 6 := by
  have hlen : (allChars k).length = 30 := by
    rw [(allChars_perm k hk).length_eq]
    rfl
  obtain ⟨h1, h2, h3⟩ := buildRows_spec (allChars k) (by omega)
  exact ⟨h1, h2, by rw [create_matrix, h3, hlen]⟩

lemma create_matrix_perm (k : List Char) (hk : ∀ c ∈ k, c ∈ letterClass) :
    ((create_matrix k).flatten).Perm alphabetL := by
  rw [(create_matrix_shape k hk).1]
  exact allChars_perm k hk

/-- C3: for every valid keyword whose characters lie in the configured
letter class, the grid built by `create_matrix` contains every symbol of
the configured 30-letter alphabet exactly once — no duplicates and no
omissions (its cells are a permutation of the alphabet). -/
theorem create_matrix_complete (k : List Char) (hkey : validate_key k = true)
    (hclass : ∀ c ∈ k, c ∈ letterClass) :
    ((create_matrix k).flatten).Perm alphabetL :=
  create_matrix_perm k hclass

/-- Witness for C3: the theorem instantiated at the keyword `"MONARCHY"`. -/
theorem create_matrix_complete_witness :
    validate_key "MONARCHY".toList = true ∧
      ((create_matrix "MONARCHY".toList).flatten).Perm alphabetL :=
  ⟨by decide, create_matrix_complete "MONARCHY".toList (by decide) (by decide)⟩

/-- C6: the matrix built from the keyword `"MONARCHY"` has row 0 =
`[M,O,N,A,R]`, row 1 = `[C,H,Y,B,D]`, row 2 = `[E,F,G,I,K]`, row 3 =
`[L,P,Q,S,T]`, row 4 = `[U,V,W,X,Z]`, with `J` merged into `I`. -/
theorem create_matrix_monarchy :
    (create_matrix "MONARCHY".toList).getD 0 [] = ['M', 'O', 'N', 'A', 'R'] ∧
    (create_matrix "MONARCHY".toList).getD 1 [] = ['C', 'H', 'Y', 'B', 'D'] ∧
    (create_matrix "MONARCHY".toList).getD 2 [] = ['E', 'F', 'G', 'I', 'K'] ∧
    (create_matrix "MONARCHY".toList).getD 3 [] = ['L', 'P', 'Q', 'S', 'T'] ∧
    (create_matrix "MONARCHY".toList).getD 4 [] = ['U', 'V', 'W', 'X', 'Z'] := by
  decide

end Playfair
namespace Playfair

/-! ### Position lookup -/

lemma findInRow_sound : ∀ (row : List Char) (c : Char) (j : Nat),
    findInRow row c = some j → j < row.length ∧ row.getD j 'X' = c := by
  intro row
  induction row with
  | nil => intro c j h; simp [findInRow] at h
  | cons x xs ih =>
    intro c j h
    rw [findInRow] at h
    by_cases hx : x = c
    · rw [if_pos hx] at h
      obtain rfl : 0 = j := Option.some.inj h
      exact ⟨by simp, hx⟩
    · rw [if_neg hx] at h
      obtain ⟨a, ha, rfl⟩ := Option.map_eq_some'.mp h
      obtain ⟨h1, h2⟩ := ih c a ha
      refine ⟨by simpa using h1, ?_⟩
      simpa [List.getD] using h2

lemma findInRow_none : ∀ (row : List Char) (c : Char),
    c ∉ row → findInRow row c = none := by
  intro row
  induction row with
  | nil => intro c _; rfl
  | cons x xs ih =>
    intro c hc
    have hx : x ≠ c := fun h => hc (h ▸ List.mem_cons_self x xs)
    rw [findInRow, if_neg hx, ih c (fun h => hc (List.mem_cons_of_mem x h))]
    rfl

lemma findInRow_complete : ∀ (row : List Char), row.Nodup → ∀ j < row.length,
    findInRow row (row.getD j 'X') = some j := by
  intro row
  induction row with
  | nil => intro _ j hj; simp at hj
  | cons x xs ih =>
    intro hnd j hj
    obtain ⟨hx, hxs⟩ := List.nodup_cons.mp hnd
    cases j with
    | zero => simp [findInRow, List.getD]
    | succ j =>
      have hj' : j < xs.length := by simpa using hj
      have hmem : xs.getD j 'X' ∈ xs := by
        rw [List.getD_eq_getElem xs 'X' hj']
        exact List.getElem_mem hj'
      have hne : x ≠ xs.getD j 'X' := fun h => hx (h ▸ hmem)
      rw [show (x :: xs).getD (j + 1) 'X' = xs.getD j 'X' from rfl, findInRow,
          if_neg hne, ih hxs j hj']
      rfl

lemma find_position_sound : ∀ (m : List (List Char)) (c : Char) (r p : Nat),
    find_position m c = some (r, p) →
    r < m.length ∧ p < (m.getD r []).length ∧ mget m r p = c := by
  intro m
  induction m with
  | nil => intro c r p h; simp [find_position] at h
  | cons row rest ih =>
    intro c r p h
    cases hf : findInRow row c with
    | some j =>
      rw [find_position, hf] at h
      obtain ⟨h1, h2⟩ := Prod.mk.injEq .. ▸ Option.some.inj h
      subst h1
      subst h2
      obtain ⟨hj, hv⟩ := findInRow_sound row c j hf
      exact ⟨by simp, hj, hv⟩
    | none =>
      rw [find_position, hf] at h
      simp only [Option.map_eq_some'] at h
      obtain ⟨⟨r', p'⟩, hfp, heq⟩ := h
      obtain ⟨h1, h2⟩ := Prod.mk.injEq .. ▸ heq
      subst h1
      subst h2
      obtain ⟨h1, h2, h3⟩ := ih c r' p' hfp
      exact ⟨by simpa using Nat.succ_lt_succ h1, h2, h3⟩

lemma mget_mem : ∀ (m : List (List Char)) (i j : Nat), i < m.length →
    j < (m.getD i []).length → mget m i j ∈ m.flatten := by
  intro m
  induction m with
  | nil => intro i j hi _; simp at hi
  | cons row rest ih =>
    intro i j hi hj
    cases i with
    | zero =>
      rw [show mget (row :: rest) 0 j = row.getD j 'X' from rfl, List.flatten_cons]
      apply List.mem_append_left
      have hj' : j < row.length := hj
      rw [List.getD_eq_getElem row 'X' hj']
      exact List.getElem_mem hj'
    | succ i =>
      rw [show mget (row :: rest) (i + 1) j = mget rest i j from rfl,
          List.flatten_cons]
      exact List.mem_append_right _ (ih i j (by simpa using hi) hj)

lemma find_position_complete : ∀ (m : List (List Char)), m.flatten.Nodup →
    ∀ (i j : Nat), i < m.length → j < (m.getD i []).length →
    find_position m (mget m i j) = some (i, j) := by
  intro m
  induction m with
  | nil => intro _ i j hi _; simp at hi
  | cons row rest ih =>
    intro hnd i j hi hj
    rw [List.flatten_cons] at hnd
    obtain ⟨hrow, hrest, hdisj⟩ := List.nodup_append.mp hnd
    cases i with
    | zero =>
      have hj' : j < row.length := hj
      rw [show mget (row :: rest) 0 j = row.getD j 'X' from rfl, find_position,
          findInRow_complete row hrow j hj']
    | succ i =>
      have hc : mget (row :: rest) (i + 1) j = mget rest i j := rfl
      have hmem : mget rest i j ∈ rest.flatten :=
        mget_mem rest i j (by simpa using hi) hj
      have hnotrow : mget rest i j ∉ row := fun hr => hdisj hr hmem
      rw [hc, find_position, findInRow_none row _ hnotrow,
          ih hrest i j (by simpa using hi) hj]
      rfl

end Playfair
namespace Playfair

/-! ### Chunk-level codec lemmas -/

lemma encChunk_pair_eq (m : List (List Char)) (a b : Char) {r1 p1 r2 p2 : Nat}
    (h1 : find_position m a = some (r1, p1))
    (h2 : find_position m b = some (r2, p2)) :
    encChunk m [a, b] =
      if r1 = r2 then [mget m r1 ((p1 + 1) % 5), mget m r2 ((p2 + 1) % 5)]
      else if p1 = p2 then
        [mget m ((r1 + 1) % m.length) p1, mget m ((r2 + 1) % m.length) p2]
      else [mget m r1 p2, mget m r2 p1] := by
  simp only [encChunk, List.headD_cons, List.getLastD_cons, List.getLastD_nil,
    h1, h2]

lemma decChunk_pair_eq (m : List (List Char)) (a b : Char) {r1 p1 r2 p2 : Nat}
    (h1 : find_position m a = some (r1, p1))
    (h2 : find_position m b = some (r2, p2)) :
    decChunk m [a, b] =
      if r1 = r2 then [mget m r1 ((p1 + 4) % 5), mget m r2 ((p2 + 4) % 5)]
      else if p1 = p2 then
        [mget m ((r1 + m.length - 1) % m.length) p1,
         mget m ((r2 + m.length - 1) % m.length) p2]
      else [mget m r1 p2, mget m r2 p1] := by
  simp only [decChunk, List.headD_cons, List.getLastD_cons, List.getLastD_nil,
    h1, h2]

lemma encChunk_pair_fallback (m : List (List Char)) (a b : Char)
    (h : find_position m a = none ∨ find_position m b = none) :
    encChunk m [a, b] = [a, b] := by
  rcases h with h | h
  · cases hb : find_position m b with
    | none => simp [encChunk, h, hb]
    | some q => cases q; simp [encChunk, h, hb]
  · cases ha : find_position m a with
    | none => simp [encChunk, ha, h]
    | some q => cases q; simp [encChunk, ha, h]

lemma decChunk_pair_fallback (m : List (List Char)) (a b : Char)
    (h : find_position m a = none ∨ find_position m b = none) :
    decChunk m [a, b] = [a, b] := by
  rcases h with h | h
  · cases hb : find_position m b with
    | none => simp [decChunk, h, hb]
    | some q => cases q; simp [decChunk, h, hb]
  · cases ha : find_position m a with
    | none => simp [decChunk, ha, h]
    | some q => cases q; simp [decChunk, ha, h]

lemma decChunk_singleton (m : List (List Char)) (c : Char) {r p : Nat}
    (h : find_position m c = some (r, p)) :
    decChunk m [c] = [mget m r ((p + 4) % 5), mget m r ((p + 4) % 5)] := by
  simp [decChunk, h]

lemma encChunk_pair_length (m : List (List Char)) (a b : Char) :
    (encChunk m [a, b]).length = 2 := by
  rcases h1 : find_position m a with _ | ⟨r1, p1⟩ <;>
    rcases h2 : find_position m b with _ | ⟨r2, p2⟩ <;>
    simp [encChunk, h1, h2] <;> split_ifs <;> simp

lemma decChunk_pair_length (m : List (List Char)) (a b : Char) :
    (decChunk m [a, b]).length = 2 := by
  rcases h1 : find_position m a with _ | ⟨r1, p1⟩ <;>
    rcases h2 : find_position m b with _ | ⟨r2, p2⟩ <;>
    simp [decChunk, h1, h2] <;> split_ifs <;> simp

lemma rowlen_getD (m : List (List Char)) (hrows : ∀ r ∈ m, r.length = 5)
    {i : Nat} (hi : i < m.length) : (m.getD i []).length = 5 := by
  apply hrows
  rw [List.getD_eq_getElem m [] hi]
  exact List.getElem_mem hi

/-- On a 6-row, 5-column, duplicate-free grid, decoding inverts encoding on
any bigram whose two characters both occur in the grid. -/
lemma pair_roundtrip (m : List (List Char)) (hlen6 : m.length = 6)
    (hrows : ∀ r ∈ m, r.length = 5) (hnd : m.flatten.Nodup)
    {a b : Char} {r1 p1 r2 p2 : Nat}
    (h1 : find_position m a = some (r1, p1))
    (h2 : find_position m b = some (r2, p2)) :
    decChunk m (encChunk m [a, b]) = [a, b] := by
  obtain ⟨hr1, hp1', hv1⟩ := find_position_sound m a r1 p1 h1
  obtain ⟨hr2, hp2', hv2⟩ := find_position_sound m b r2 p2 h2
  have hp1 : p1 < 5 := by rw [← rowlen_getD m hrows hr1]; exact hp1'
  have hp2 : p2 < 5 := by rw [← rowlen_getD m hrows hr2]; exact hp2'
  rw [encChunk_pair_eq m a b h1 h2]
  by_cases hr : r1 = r2
  · subst hr
    rw [if_pos rfl]
    have q1 : (p1 + 1) % 5 < (m.getD r1 []).length := by
      rw [rowlen_getD m hrows hr1]; omega
    have q2 : (p2 + 1) % 5 < (m.getD r1 []).length := by
      rw [rowlen_getD m hrows hr1]; omega
    have f1 := find_position_complete m hnd r1 ((p1 + 1) % 5) hr1 q1
    have f2 := find_position_complete m hnd r1 ((p2 + 1) % 5) hr1 q2
    rw [decChunk_pair_eq m _ _ f1 f2, if_pos rfl]
    have e1 : ((p1 + 1) % 5 + 4) % 5 = p1 := by omega
    have e2 : ((p2 + 1) % 5 + 4) % 5 = p2 := by omega
    rw [e1, e2, hv1, hv2]
  · rw [if_neg hr]
    by_cases hp : p1 = p2
    · subst hp
      rw [if_pos rfl, hlen6]
      have hra : (r1 + 1) % 6 < m.length := by rw [hlen6]; omega
      have hrb : (r2 + 1) % 6 < m.length := by rw [hlen6]; omega
      have qa : p1 < (m.getD ((r1 + 1) % 6) []).length := by
        rw [rowlen_getD m hrows hra]; exact hp1
      have qb : p1 < (m.getD ((r2 + 1) % 6) []).length := by
        rw [rowlen_getD m hrows hrb]; exact hp1
      have f1 := find_position_complete m hnd ((r1 + 1) % 6) p1 hra qa
      have f2 := find_position_complete m hnd ((r2 + 1) % 6) p1 hrb qb
      rw [decChunk_pair_eq m _ _ f1 f2]
      rw [hlen6] at hr1 hr2
      have hne : (r1 + 1) % 6 ≠ (r2 + 1) % 6 := by omega
      rw [if_neg hne, if_pos rfl, hlen6]
      have e1 : ((r1 + 1) % 6 + 6 - 1) % 6 = r1 := by omega
      have e2 : ((r2 + 1) % 6 + 6 - 1) % 6 = r2 := by omega
      rw [e1, e2, hv1, hv2]
    · rw [if_neg hp]
      have qa : p2 < (m.getD r1 []).length := by
        rw [rowlen_getD m hrows hr1]; exact hp2
      have qb : p1 < (m.getD r2 []).length := by
        rw [rowlen_getD m hrows hr2]; exact hp1
      have f1 := find_position_complete m hnd r1 p2 hr1 qa
      have f2 := find_position_complete m hnd r2 p1 hr2 qb
      rw [decChunk_pair_eq m _ _ f1 f2, if_neg hr,
          if_neg (fun h => hp h.symm), hv1, hv2]

/-- A found bigram is encoded to two grid entries at in-range positions. -/
lemma encChunk_pair_found (m : List (List Char)) (hlen6 : m.length = 6)
    (hrows : ∀ r ∈ m, r.length = 5) {a b : Char} {r1 p1 r2 p2 : Nat}
    (h1 : find_position m a = some (r1, p1))
    (h2 : find_position m b = some (r2, p2)) :
    ∃ i1 j1 i2 j2, i1 < m.length ∧ j1 < (m.getD i1 []).length ∧
      i2 < m.length ∧ j2 < (m.getD i2 []).length ∧
      encChunk m [a, b] = [mget m i1 j1, mget m i2 j2] := by
  obtain ⟨hr1, hp1', -⟩ := find_position_sound m a r1 p1 h1
  obtain ⟨hr2, hp2', -⟩ := find_position_sound m b r2 p2 h2
  have hp1 : p1 < 5 := by rw [← rowlen_getD m hrows hr1]; exact hp1'
  have hp2 : p2 < 5 := by rw [← rowlen_getD m hrows hr2]; exact hp2'
  rw [encChunk_pair_eq m a b h1 h2]
  by_cases hr : r1 = r2
  · subst hr
    rw [if_pos rfl]
    exact ⟨r1, (p1 + 1) % 5, r1, (p2 + 1) % 5, hr1,
      by rw [rowlen_getD m hrows hr1]; omega,
      hr1, by rw [rowlen_getD m hrows hr1]; omega, rfl⟩
  · rw [if_neg hr]
    by_cases hp : p1 = p2
    · subst hp
      rw [if_pos rfl]
      have ha : (r1 + 1) % m.length < m.length := Nat.mod_lt _ (by omega)
      have hb : (r2 + 1) % m.length < m.length := Nat.mod_lt _ (by omega)
      exact ⟨(r1 + 1) % m.length, p1, (r2 + 1) % m.length, p1, ha,
        by rw [rowlen_getD m hrows ha]; omega,
        hb, by rw [rowlen_getD m hrows hb]; omega, rfl⟩
    · rw [if_neg hp]
      exact ⟨r1, p2, r2, p1, hr1, by rw [rowlen_getD m hrows hr1]; omega,
        hr2, by rw [rowlen_getD m hrows hr2]; omega, rfl⟩

end Playfair
namespace Playfair

/-! ### Whole-message lemmas -/

lemma upper_fixed_alphabet : ∀ c ∈ alphabetL, toUpperRo c = c := by decide

lemma processEnc_even (msg : List Char) : (processEnc msg).length % 2 = 0 := by
  by_cases h : ((msg.map toUpperRo).map replJ).length % 2 = 0
  · rw [processEnc, padEven, if_neg (fun hc => hc h)]
    exact h
  · rw [processEnc, padEven, if_pos h]
    simp only [List.length_append, List.length_cons, List.length_nil]
    omega

lemma enc_flatten_length (m : List (List Char)) :
    ∀ t : List Char, t.length % 2 = 0 →
      (((chunks2 t).map (encChunk m)).flatten).length = t.length := by
  intro t
  induction t using chunks2.induct with
  | case1 => intro _; rfl
  | case2 a => intro h; simp at h
  | case3 a b rest ih =>
    intro h
    have hrest : rest.length % 2 = 0 := by
      simp only [List.length_cons] at h
      omega
    simp only [chunks2, List.map_cons, List.flatten_cons, List.length_append,
      ih hrest, encChunk_pair_length, List.length_cons]
    omega

lemma dec_flatten_length_odd (m : List (List Char)) :
    ∀ t : List Char, t.length % 2 = 1 →
      (∀ c ∈ t, (find_position m c).isSome = true) →
      (((chunks2 t).map (decChunk m)).flatten).length = t.length + 1 := by
  intro t
  induction t using chunks2.induct with
  | case1 => intro h _; simp at h
  | case2 a =>
    intro _ hf
    obtain ⟨⟨r, p⟩, hr⟩ :=
      Option.isSome_iff_exists.mp (hf a (List.mem_singleton_self a))
    simp [chunks2, decChunk_singleton m a hr]
  | case3 a b rest ih =>
    intro h hf
    have hrest : rest.length % 2 = 1 := by
      simp only [List.length_cons] at h
      omega
    have hfr : ∀ c ∈ rest, (find_position m c).isSome = true := fun c hc =>
      hf c (List.mem_cons_of_mem a (List.mem_cons_of_mem b hc))
    simp only [chunks2, List.map_cons, List.flatten_cons, List.length_append,
      decChunk_pair_length, ih hrest hfr, List.length_cons]
    omega

/-- Decoding the encoded chunk stream of an even-length, fully-found text
recovers the text. -/
lemma roundtrip_chunks (m : List (List Char)) (hlen6 : m.length = 6)
    (hrows : ∀ r ∈ m, r.length = 5) (hnd : m.flatten.Nodup)
    (hfix : ∀ x ∈ m.flatten, toUpperRo x = x) :
    ∀ t : List Char, t.length % 2 = 0 →
      (∀ c ∈ t, (find_position m c).isSome = true) →
      ((chunks2 ((((chunks2 t).map (encChunk m)).flatten).map toUpperRo)).map
        (decChunk m)).flatten = t := by
  intro t
  induction t using chunks2.induct with
  | case1 => intro _ _; rfl
  | case2 a => intro h _; simp at h
  | case3 a b rest ih =>
    intro h hf
    have hrest : rest.length % 2 = 0 := by
      simp only [List.length_cons] at h
      omega
    obtain ⟨⟨r1, p1⟩, h1⟩ :=
      Option.isSome_iff_exists.mp (hf a (List.mem_cons_self a _))
    obtain ⟨⟨r2, p2⟩, h2⟩ := Option.isSome_iff_exists.mp
      (hf b (List.mem_cons_of_mem a (List.mem_cons_self b _)))
    obtain ⟨i1, j1, i2, j2, hi1, hj1, hi2, hj2, henc⟩ :=
      encChunk_pair_found m hlen6 hrows h1 h2
    have hx1 : toUpperRo (mget m i1 j1) = mget m i1 j1 :=
      hfix _ (mget_mem m i1 j1 hi1 hj1)
    have hx2 : toUpperRo (mget m i2 j2) = mget m i2 j2 :=
      hfix _ (mget_mem m i2 j2 hi2 hj2)
    have hdec : decChunk m [mget m i1 j1, mget m i2 j2] = [a, b] := by
      rw [← henc]
      exact pair_roundtrip m hlen6 hrows hnd h1 h2
    have hih := ih hrest (fun c hc =>
      hf c (List.mem_cons_of_mem a (List.mem_cons_of_mem b hc)))
    simp only [chunks2, List.map_cons, List.flatten_cons, henc,
      List.cons_append, List.nil_append, hx1, hx2, hdec, hih]

/-! ### Claim theorems for the codec -/

/-- C1 (amended): for every matrix built from a valid keyword over the
configured letter class and every message, decoding the encoding returns
the message uppercased, with `J` merged into `I`, and padded to even length
with `X` (that is, `processEnc msg`), provided every character of the
processed message is found in the grid and no bigram consists of two equal
letters. -/
theorem playfair_roundtrip (k msg : List Char)
    (hkey : validate_key k = true)
    (hclass : ∀ c ∈ k, c ∈ letterClass)
    (hfound : ∀ c ∈ processEnc msg,
      (find_position (create_matrix k) c).isSome = true)
    (hnodouble : ∀ ch ∈ chunks2 (processEnc msg),
      ch.headD 'X' ≠ ch.getLastD 'X') :
    decrypt_playfair (create_matrix k) (encrypt_playfair (create_matrix k) msg)
      = processEnc msg := by
  obtain ⟨hflat, hrows, hlen6⟩ := create_matrix_shape k hclass
  have hperm := create_matrix_perm k hclass
  have hnd : (create_matrix k).flatten.Nodup :=
    hperm.nodup_iff.mpr alphabetL_nodup
  have hfix : ∀ x ∈ (create_matrix k).flatten, toUpperRo x = x := fun x hx =>
    upper_fixed_alphabet x (hperm.subset hx)
  unfold decrypt_playfair encrypt_playfair
  exact roundtrip_chunks (create_matrix k) hlen6 hrows hnd hfix
    (processEnc msg) (processEnc_even msg) hfound

/-- C1 counterexample for the claim as stated: for the message `"JA"` under
the `"MONARCHY"` matrix, every processed character is found, no bigram has
two equal letters, yet decoding the encoding gives `"IA"`, not the
uppercased-and-padded message `"JA"` — the `J→I` merge is missing from the
claimed round-trip result. -/
theorem playfair_roundtrip_j_counterexample :
    (∀ c ∈ processEnc "JA".toList,
      (find_position (create_matrix "MONARCHY".toList) c).isSome = true) ∧
    (∀ ch ∈ chunks2 (processEnc "JA".toList),
      ch.headD 'X' ≠ ch.getLastD 'X') ∧
    decrypt_playfair (create_matrix "MONARCHY".toList)
        (encrypt_playfair (create_matrix "MONARCHY".toList) "JA".toList)
      ≠ padEven ("JA".toList.map toUpperRo) := by
  refine ⟨by decide, by decide, by decide⟩

/-- Witness for C1: the amended round-trip at keyword `"MONARCHY"` and
message `"WORLD"`. -/
theorem playfair_roundtrip_witness :
    validate_key "MONARCHY".toList = true ∧
      decrypt_playfair (create_matrix "MONARCHY".toList)
          (encrypt_playfair (create_matrix "MONARCHY".toList) "WORLD".toList)
        = processEnc "WORLD".toList :=
  ⟨by decide, playfair_roundtrip "MONARCHY".toList "WORLD".toList (by decide)
    (by decide) (by decide) (by decide)⟩

/-- C7: for every matrix and every bigram either of whose characters is
absent from the matrix, both the encoder and the decoder emit the two
original characters unchanged — an unfound symbol is never an error. -/
theorem playfair_passthrough (m : List (List Char)) (a b : Char)
    (h : find_position m a = none ∨ find_position m b = none) :
    encChunk m [a, b] = [a, b] ∧ decChunk m [a, b] = [a, b] :=
  ⟨encChunk_pair_fallback m a b h, decChunk_pair_fallback m a b h⟩

/-- Witness for C7: the digit `'1'` is not in the `"MONARCHY"` grid, and the
bigram `['1', 'M']` passes through both codec directions unchanged. -/
theorem playfair_passthrough_witness :
    (find_position (create_matrix "MONARCHY".toList) '1' = none ∨
      find_position (create_matrix "MONARCHY".toList) 'M' = none) ∧
    encChunk (create_matrix "MONARCHY".toList) ['1', 'M'] = ['1', 'M'] ∧
    decChunk (create_matrix "MONARCHY".toList) ['1', 'M'] = ['1', 'M'] :=
  ⟨Or.inl (by decide),
    playfair_passthrough (create_matrix "MONARCHY".toList) '1' 'M'
      (Or.inl (by decide))⟩

/-- C8: encryption of an odd-length plaintext appends the filler `X` before
pairing and encrypts the even-length padded sequence, producing one output
character per padded input character; in particular `"HELLO"` is processed
as the six characters `"HELLOX"`, three bigrams, six output characters
under every matrix. -/
theorem encrypt_odd_pads :
    (∀ (m : List (List Char)) (msg : List Char), msg.length % 2 = 1 →
      processEnc msg = (msg.map toUpperRo).map replJ ++ ['X'] ∧
        (encrypt_playfair m msg).length = msg.length + 1) ∧
    processEnc "HELLO".toList = "HELLOX".toList ∧
    (chunks2 (processEnc "HELLO".toList)).length = 3 ∧
    ∀ m : List (List Char), (encrypt_playfair m "HELLO".toList).length = 6 := by
  have hgen : ∀ (m : List (List Char)) (msg : List Char), msg.length % 2 = 1 →
      processEnc msg = (msg.map toUpperRo).map replJ ++ ['X'] ∧
        (encrypt_playfair m msg).length = msg.length + 1 := by
    intro m msg hodd
    have hlen : ((msg.map toUpperRo).map replJ).length = msg.length := by simp
    have hpe : processEnc msg = (msg.map toUpperRo).map replJ ++ ['X'] := by
      rw [processEnc, padEven, if_pos (by rw [hlen]; omega)]
    refine ⟨hpe, ?_⟩
    have h2 := enc_flatten_length m (processEnc msg) (processEnc_even msg)
    unfold encrypt_playfair
    rw [h2, hpe]
    simp only [List.length_append, List.length_cons, List.length_nil, hlen]
  refine ⟨hgen, by decide, by decide, ?_⟩
  intro m
  rw [(hgen m "HELLO".toList (by decide)).2]
  decide

/-- Witness for C8: the general part of the theorem at the `"MONARCHY"`
matrix and the odd-length message `"HELLO"`. -/
theorem encrypt_odd_pads_witness :
    "HELLO".toList.length % 2 = 1 ∧
      (processEnc "HELLO".toList
          = ("HELLO".toList.map toUpperRo).map replJ ++ ['X'] ∧
        (encrypt_playfair (create_matrix "MONARCHY".toList)
          "HELLO".toList).length = "HELLO".toList.length + 1) :=
  ⟨by decide, encrypt_odd_pads.1 (create_matrix "MONARCHY".toList)
    "HELLO".toList (by decide)⟩

/-- C10: decoding is total on odd-length input — when every (uppercased)
ciphertext character occurs in the matrix, the final singleton chunk is
processed as the pair `(c, c)` at one grid position, dispatched through the
same-row rule (emitting the same shifted character twice), so the output
has exactly one more character than the input. -/
theorem decrypt_odd_total (m : List (List Char)) (text : List Char)
    (hodd : text.length % 2 = 1)
    (hfound : ∀ c ∈ text.map toUpperRo,
      (find_position m c).isSome = true) :
    (decrypt_playfair m text).length = text.length + 1 ∧
      ∀ (c : Char) (r p : Nat), find_position m c = some (r, p) →
        decChunk m [c] = [mget m r ((p + 4) % 5), mget m r ((p + 4) % 5)] := by
  constructor
  · have h := dec_flatten_length_odd m (text.map toUpperRo)
      (by simpa using hodd) hfound
    unfold decrypt_playfair
    rw [h]
    simp
  · intro c r p h
    exact decChunk_singleton m c h

/-- Witness for C10: decoding the odd-length ciphertext `"VNMTB"` (all
characters present in the `"MONARCHY"` grid) yields six characters. -/
theorem decrypt_odd_total_witness :
    "VNMTB".toList.length % 2 = 1 ∧
      (decrypt_playfair (create_matrix "MONARCHY".toList)
        "VNMTB".toList).length = "VNMTB".toList.length + 1 :=
  ⟨by decide, (decrypt_odd_total (create_matrix "MONARCHY".toList)
    "VNMTB".toList (by decide) (by decide)).1⟩

end Playfair
